import Mathlib

/-
Shallow embedding of src/event_bus/bus.py (c2technology/python-event-bus).

The bus keeps `self.registry`, a Python dict mapping an event name (string)
to a Python set of handler references.  We embed:
  * the dict as an association list `Registry H = List (String × List H)`
    (dict assignment replaces the value of an existing key, or appends a
    fresh key at the end; `del` removes the key);
  * the set as a duplicate-free list of handlers, where `setAdd` embeds
    `set.add` (a no-op when the element is present) and Python's
    `set.remove` raises `KeyError` when the element is absent and
    otherwise removes it with no other mutation;
  * handler references as an arbitrary type `H` with decidable equality
    (Python compares set members by identity/equality).
Python's `KeyError` — the not-found condition raised by `d[k]` on a
missing key and by `set.remove` on a missing member — is embedded as
`KeyErr.keyError`.
-/

set_option linter.unusedSectionVars false

namespace EventBus

/-- Python `KeyError`: the not-found condition raised by dict subscription
on a missing key and by `set.remove` on a missing member. -/
inductive KeyErr where
  | keyError
deriving DecidableEq, Repr

/-- The bus registry: `self.registry`, a dict from event name to the set of
handlers registered for that name.  The set is embedded as a list without
duplicates. -/
abbrev Registry (H : Type) := List (String × List H)

variable {H : Type} [DecidableEq H] {D : Type}

/-- Dict lookup `self.registry.get(event_name, None)`: the value stored at
the first matching key, if any. -/
def lookup : Registry H → String → Option (List H)
  | [], _ => none
  | (k, v) :: rest, e => if k = e then some v else lookup rest e

/-- Dict assignment `self.registry[event_name] = s` (also the effect on the
registry of mutating the stored set in place): replaces the value at an
existing key, or appends the new key at the end as Python dicts do. -/
def setVal : Registry H → String → List H → Registry H
  | [], e, s => [(e, s)]
  | (k, v) :: rest, e, s => if k = e then (e, s) :: rest else (k, v) :: setVal rest e s

/-- Dict deletion `del self.registry[event_name]`: drops the key. -/
def delKey (r : Registry H) (e : String) : Registry H :=
  r.filter (fun p => p.1 != e)

/-- Python `set.add`: inserting a member already present leaves the set
unchanged. -/
def setAdd (s : List H) (h : H) : List H :=
  if h ∈ s then s else s ++ [h]

/-- The handler set currently registered for an event name (empty when the
name is not a key). -/
def setOf (r : Registry H) (e : String) : List H :=
  (lookup r e).getD []

/-- UntypedEventBus.register (bus.py lines 75-84): if
`self.registry.get(event_name, None)` is falsy (key absent, or an empty
set stored) the key is assigned the singleton `{event_handler}`, otherwise
the handler is added to the existing set. -/
def register (r : Registry H) (e : String) (h : H) : Registry H :=
  match lookup r e with
  | none => setVal r e [h]
  | some s => if s.isEmpty then setVal r e [h] else setVal r e (setAdd s h)

/-- UntypedEventBus.unregister (bus.py lines 86-94):
`self.registry[event_name].remove(event_handler)` raises `KeyError` when
the key is absent (dict subscription) or when the handler is not a member
(`set.remove`), mutating nothing in either case; on success the handler is
removed and, if the set became empty, the key is deleted.  The first
component is the registry after the call (unchanged when the error is
raised), the second the raised error, if any. -/
def unregister (r : Registry H) (e : String) (h : H) : Registry H × Option KeyErr :=
  match lookup r e with
  | none => (r, some KeyErr.keyError)
  | some s =>
    if h ∈ s then
      let s2 := s.erase h
      if s2.length = 0 then (delKey r e, none) else (setVal r e s2, none)
    else (r, some KeyErr.keyError)

/-!
Operational model of `UntypedEventBus.emit` (bus.py lines 96-106).

`emit` reads the handler collection for the event name
(`self.registry.get(event_name, [])`) and calls each handler in turn with
the payload.  Handlers are arbitrary Python callables; a handler body may
itself call `register`, `unregister` or `emit` on the bus (re-entrantly,
on the same call stack) or raise an exception.  We model a handler
reference as a `Nat` identifier and a handler's observable behavior as the
list of bus actions its body performs, given by an environment
`prog : Nat → List Act`.  The interpreter threads the registry through,
records every handler invocation in a trace, and propagates a raised
exception (`ok = false`) outward, aborting the remaining actions and the
remaining handlers of every enclosing emission — exactly the uncaught
exception behavior of the Python `for` loop.  `fuel` bounds the depth of
re-entrant emission so the interpreter is total; `fuel` exhaustion is
reported as `ok = false`.
-/

/-- Payloads are opaque to the bus; we embed them as naturals. -/
abbrev Payload := Nat

/-- One action a handler body can perform on the bus when invoked. -/
inductive Act where
  | emitAct (e : String) (d : Payload)
  | regAct (e : String) (hid : Nat)
  | unregAct (e : String) (hid : Nat)
  | failAct
deriving DecidableEq, Repr

/-- A recorded handler invocation: handler `hid` was called during an
emission of event `ev` with payload `data`. -/
structure Call where
  hid : Nat
  ev : String
  data : Payload
deriving DecidableEq, Repr

/-- Result of running part of an emission: the registry afterwards, the
trace of handler invocations, and whether it completed without an
exception. -/
structure RunRes where
  reg : Registry Nat
  trace : List Call
  ok : Bool
deriving DecidableEq, Repr

mutual

/-- UntypedEventBus.emit: look up the handler collection for the event
name (absent means a silent no-op) and invoke each handler with the
payload. -/
def runEmit (prog : Nat → List Act) (fuel : Nat) (e : String) (d : Payload)
    (r : Registry Nat) : RunRes :=
  match fuel with
  | 0 => ⟨r, [], false⟩
  | fuel' + 1 =>
    match lookup r e with
    | none => ⟨r, [], true⟩
    | some hs => runHandlers prog fuel' hs e d r
termination_by (fuel, 0, 0)

/-- The `for event_handler in event_handlers: event_handler(data)` loop of
emit: invoke each handler in turn; an exception raised by one handler
aborts the loop, so later handlers are never invoked. -/
def runHandlers (prog : Nat → List Act) (fuel : Nat) (hs : List Nat) (e : String)
    (d : Payload) (r : Registry Nat) : RunRes :=
  match hs with
  | [] => ⟨r, [], true⟩
  | hid :: rest =>
    let res := runActs prog fuel (prog hid) r
    if res.ok then
      let res2 := runHandlers prog fuel rest e d res.reg
      ⟨res2.reg, Call.mk hid e d :: res.trace ++ res2.trace, res2.ok⟩
    else
      ⟨res.reg, Call.mk hid e d :: res.trace, false⟩
termination_by (fuel, 2, hs.length)

/-- Run the body of one handler: each action in turn, stopping at the
first raised exception (which propagates to the enclosing emission). -/
def runActs (prog : Nat → List Act) (fuel : Nat) (acts : List Act)
    (r : Registry Nat) : RunRes :=
  match acts with
  | [] => ⟨r, [], true⟩
  | Act.emitAct e d :: rest =>
    let res := runEmit prog fuel e d r
    if res.ok then
      let res2 := runActs prog fuel rest res.reg
      ⟨res2.reg, res.trace ++ res2.trace, res2.ok⟩
    else res
  | Act.regAct e hid :: rest => runActs prog fuel rest (register r e hid)
  | Act.unregAct e hid :: rest =>
    let u := unregister r e hid
    match u.2 with
    | some _ => ⟨u.1, [], false⟩
    | none => runActs prog fuel rest u.1
  | Act.failAct :: _ => ⟨r, [], false⟩
termination_by (fuel, 1, acts.length)

end

/-- Does this action mutate the registry (a `register` or `unregister`
call on the bus)? -/
def actMutates : Act → Bool
  | Act.regAct _ _ => true
  | Act.unregAct _ _ => true
  | _ => false

/-- One public bus operation, for stating invariants over arbitrary call
sequences on a bus. -/
inductive Op where
  | reg (e : String) (h : Nat)
  | unreg (e : String) (h : Nat)
  | emitOp (e : String) (d : Payload)
deriving DecidableEq, Repr

/-- Apply a sequence of public bus operations to a registry.  A failing
`unregister` raises, leaving the registry as it was (its first component);
`emit` runs the interpreter above. -/
def applyOps (prog : Nat → List Act) (fuel : Nat) : List Op → Registry Nat → Registry Nat
  | [], r => r
  | Op.reg e h :: ops, r => applyOps prog fuel ops (register r e h)
  | Op.unreg e h :: ops, r => applyOps prog fuel ops (unregister r e h).1
  | Op.emitOp e d :: ops, r => applyOps prog fuel ops (runEmit prog fuel e d r).reg

/-- The registry invariant of the spec: every stored handler set is
non-empty (equivalently, a name is a key iff at least one handler is
registered for it). -/
def Inv (r : Registry H) : Prop := ∀ p ∈ r, p.2 ≠ []

/-- Every stored handler set is duplicate-free — the embedding invariant
of a Python set as a list. -/
def SetInv (r : Registry H) : Prop := ∀ p ∈ r, p.2.Nodup

/-!
TypedEventBus (bus.py lines 23-64).  Identical registry code; the
differences from UntypedEventBus are an extra, never-used
`self.event_handlers = dict()` field and the handler invocation arity:
`event_handler(event_name, data)` instead of `event_handler(data)`.
-/

/-- TypedEventBus state: `self.registry` plus the unused
`self.event_handlers` dict (initialized empty and never touched by any
method). -/
structure TypedBus (H : Type) where
  registry : Registry H
  event_handlers : Registry H
deriving DecidableEq, Repr

/-- TypedEventBus.\_\_init\_\_: both dicts start empty. -/
def TypedBus.new : TypedBus H := ⟨[], []⟩

/-- TypedEventBus.register (bus.py lines 34-43): same code as the untyped
variant, acting on `self.registry`. -/
def TypedBus.register (b : TypedBus H) (e : String) (func : H) : TypedBus H :=
  match lookup b.registry e with
  | none => { b with registry := setVal b.registry e [func] }
  | some s =>
    if s.isEmpty then { b with registry := setVal b.registry e [func] }
    else { b with registry := setVal b.registry e (setAdd s func) }

/-- TypedEventBus.unregister (bus.py lines 45-53): same code as the
untyped variant, acting on `self.registry`. -/
def TypedBus.unregister (b : TypedBus H) (e : String) (h : H) :
    TypedBus H × Option KeyErr :=
  match lookup b.registry e with
  | none => (b, some KeyErr.keyError)
  | some s =>
    if h ∈ s then
      let s2 := s.erase h
      if s2.length = 0 then ({ b with registry := delKey b.registry e }, none)
      else ({ b with registry := setVal b.registry e s2 }, none)
    else (b, some KeyErr.keyError)

/-- TypedEventBus.emit (bus.py lines 55-64) as its list of handler
invocations: each registered handler is called as
`event_handler(event_name, data)`. -/
def TypedBus.emitCalls (b : TypedBus H) (e : String) (d : D) : List (H × String × D) :=
  ((lookup b.registry e).getD []).map (fun h => (h, e, d))

/-- UntypedEventBus.emit (bus.py lines 96-106) as its list of handler
invocations: each registered handler is called as `event_handler(data)`. -/
def emitCalls (r : Registry H) (e : String) (d : D) : List (H × D) :=
  ((lookup r e).getD []).map (fun h => (h, d))

/-- A registry-mutating public operation (register or unregister), for
comparing the two bus variants over arbitrary call sequences. -/
inductive RegOp (H : Type) where
  | reg (e : String) (h : H)
  | unreg (e : String) (h : H)

/-- Apply a sequence of register/unregister calls to an UntypedEventBus
registry (a failing unregister leaves the registry unchanged). -/
def applyRegOps : List (RegOp H) → Registry H → Registry H
  | [], r => r
  | RegOp.reg e h :: ops, r => applyRegOps ops (register r e h)
  | RegOp.unreg e h :: ops, r => applyRegOps ops (unregister r e h).1

/-- Apply the same sequence of register/unregister calls to a
TypedEventBus. -/
def TypedBus.applyRegOps : List (RegOp H) → TypedBus H → TypedBus H
  | [], b => b
  | RegOp.reg e h :: ops, b => TypedBus.applyRegOps ops (b.register e h)
  | RegOp.unreg e h :: ops, b => TypedBus.applyRegOps ops (b.unregister e h).1

/-! Basic lemmas about the registry primitives. -/

theorem lookup_setVal_self (r : Registry H) (e : String) (s : List H) :
    lookup (setVal r e s) e = some s := by
  induction r with
  | nil => simp [setVal, lookup]
  | cons p rest ih =>
    obtain ⟨k, v⟩ := p
    by_cases hk : k = e
    · simp [setVal, hk, lookup]
    · simp [setVal, hk, lookup, ih]

theorem lookup_setVal_ne (r : Registry H) (e e' : String) (s : List H) (hne : e' ≠ e) :
    lookup (setVal r e s) e' = lookup r e' := by
  induction r with
  | nil => simp [setVal, lookup, Ne.symm hne]
  | cons p rest ih =>
    obtain ⟨k, v⟩ := p
    by_cases hk : k = e
    · simp [setVal, lookup, hk, Ne.symm hne]
    · simp [setVal, hk, lookup, ih]

theorem lookup_delKey_self (r : Registry H) (e : String) :
    lookup (delKey r e) e = none := by
  induction r with
  | nil => simp [delKey, lookup]
  | cons p rest ih =>
    obtain ⟨k, v⟩ := p
    by_cases hk : k = e
    · simpa [delKey, List.filter_cons, hk] using ih
    · simpa [delKey, List.filter_cons, bne_iff_ne, hk, lookup] using ih

theorem lookup_delKey_ne (r : Registry H) (e e' : String) (hne : e' ≠ e) :
    lookup (delKey r e) e' = lookup r e' := by
  induction r with
  | nil => simp [delKey, lookup]
  | cons p rest ih =>
    obtain ⟨k, v⟩ := p
    by_cases hk : k = e
    · simpa [delKey, List.filter_cons, hk, lookup, Ne.symm hne] using ih
    · by_cases hk' : k = e'
      · simp [delKey, List.filter_cons, bne_iff_ne, hk, lookup, hk', hne]
      · simpa [delKey, List.filter_cons, bne_iff_ne, hk, lookup, hk'] using ih

theorem setVal_absent (r : Registry H) (e : String) (s : List H)
    (habs : lookup r e = none) : setVal r e s = r ++ [(e, s)] := by
  induction r with
  | nil => simp [setVal]
  | cons p rest ih =>
    obtain ⟨k, v⟩ := p
    by_cases hk : k = e
    · simp [lookup, hk] at habs
    · simp [lookup, hk] at habs
      simp [setVal, hk, ih habs]

theorem delKey_absent (r : Registry H) (e : String)
    (habs : lookup r e = none) : delKey r e = r := by
  induction r with
  | nil => simp [delKey]
  | cons p rest ih =>
    obtain ⟨k, v⟩ := p
    by_cases hk : k = e
    · simp [lookup, hk] at habs
    · simp [lookup, hk] at habs
      simp [delKey, List.filter_cons, bne_iff_ne, hk]
      simpa [delKey] using ih habs

theorem lookup_mem (r : Registry H) (e : String) (s : List H)
    (hl : lookup r e = some s) : (e, s) ∈ r := by
  induction r with
  | nil => simp [lookup] at hl
  | cons p rest ih =>
    obtain ⟨k, v⟩ := p
    by_cases hk : k = e
    · subst hk
      simp [lookup] at hl
      subst hl
      exact List.mem_cons_self _ _
    · simp [lookup, hk] at hl
      exact List.mem_cons_of_mem _ (ih hl)

theorem setVal_setVal (r : Registry H) (e : String) (s s' : List H) :
    setVal (setVal r e s) e s' = setVal r e s' := by
  induction r with
  | nil => simp [setVal]
  | cons p rest ih =>
    obtain ⟨k, v⟩ := p
    by_cases hk : k = e
    · simp [setVal, hk]
    · simp [setVal, hk, ih]

theorem setAdd_of_mem (s : List H) (h : H) (hm : h ∈ s) : setAdd s h = s := by
  simp [setAdd, hm]

theorem mem_setAdd_self (s : List H) (h : H) : h ∈ setAdd s h := by
  unfold setAdd
  split
  · assumption
  · simp

theorem setAdd_ne_nil (s : List H) (h : H) : setAdd s h ≠ [] := by
  unfold setAdd
  split
  · intro hnil
    subst hnil
    simp_all
  · simp

/-! Claim theorems. -/

/-- C1: for every registry, event name `e` and handler `h`,
`unregister(e, h)` raises the not-found condition (Python `KeyError`)
exactly when `e` has no entry in the registry or `h` is not a member of
the handler set stored for `e`; when both are present it succeeds and
removes `h` (and nothing else) from the set for `e`. -/
theorem unregister_notfound_iff_and_removes (r : Registry H) (e : String) (h : H) :
    ((unregister r e h).2.isSome = true ↔
      (lookup r e = none ∨ ∃ s, lookup r e = some s ∧ h ∉ s))
    ∧ (∀ s, lookup r e = some s → h ∈ s → s.Nodup →
        (unregister r e h).2 = none ∧
        ∀ x, x ∈ setOf (unregister r e h).1 e ↔ (x ∈ s ∧ x ≠ h)) := by
  constructor
  · cases hl : lookup r e with
    | none => simp [unregister, hl]
    | some s =>
      by_cases hm : h ∈ s
      · have h2 : (unregister r e h).2 = none := by
          simp only [unregister, hl, hm, if_true]
          split <;> rfl
        rw [h2]
        simp [hl, hm]
      · have h2 : (unregister r e h).2 = some KeyErr.keyError := by
          simp [unregister, hl, hm]
        rw [h2]
        simp [hl, hm]
  · intro s hs hm hnd
    by_cases hlen : (s.erase h).length = 0
    · have hu : unregister r e h = (delKey r e, none) := by
        simp [unregister, hs, hm, hlen]
      rw [hu]
      refine ⟨rfl, fun x => ?_⟩
      simp only [setOf, lookup_delKey_self, Option.getD_none, List.not_mem_nil, false_iff]
      rintro ⟨hxs, hxh⟩
      have hx : x ∈ s.erase h := hnd.mem_erase_iff.2 ⟨hxh, hxs⟩
      rw [List.length_eq_zero] at hlen
      rw [hlen] at hx
      cases hx
    · have hlen2 : ¬(s.length - 1 = 0) := by
        rwa [List.length_erase, if_pos hm] at hlen
      have hu : unregister r e h = (setVal r e (s.erase h), none) := by
        simp [unregister, hs, hm, hlen2]
      rw [hu]
      refine ⟨rfl, fun x => ?_⟩
      simp only [setOf, lookup_setVal_self, Option.getD_some]
      rw [hnd.mem_erase_iff]
      exact and_comm

/-- C1 witness: on the registry mapping event a to the set containing
handlers 1 and 2, unregistering handler 1 succeeds and removes exactly
handler 1. -/
theorem unregister_notfound_iff_and_removes_witness :
    ((unregister [("a", [1, 2])] "a" (1 : Nat)).2 = none ∧
      ∀ x, x ∈ setOf (unregister [("a", [1, 2])] "a" (1 : Nat)).1 "a" ↔
        (x ∈ [1, 2] ∧ x ≠ 1)) :=
  (unregister_notfound_iff_and_removes [("a", [1, 2])] "a" 1).2 [1, 2] rfl
    (by decide) (by decide)

/-- C8: when `unregister` raises (event name unknown or handler not
registered), the registry after the call is exactly the registry before
it — the failed operation makes no partial mutation.  This holds for both
bus variants. -/
theorem unregister_failure_atomic (r : Registry H) (b : TypedBus H) (e : String) (h : H) :
    ((unregister r e h).2.isSome = true → (unregister r e h).1 = r)
    ∧ ((TypedBus.unregister b e h).2.isSome = true → (TypedBus.unregister b e h).1 = b) := by
  constructor
  · intro herr
    cases hl : lookup r e with
    | none => simp [unregister, hl]
    | some s =>
      by_cases hm : h ∈ s
      · exfalso
        have h2 : (unregister r e h).2 = none := by
          simp only [unregister, hl, hm, if_true]
          split <;> rfl
        rw [h2] at herr
        simp at herr
      · simp [unregister, hl, hm]
  · intro herr
    cases hl : lookup b.registry e with
    | none => simp [TypedBus.unregister, hl]
    | some s =>
      by_cases hm : h ∈ s
      · exfalso
        have h2 : (TypedBus.unregister b e h).2 = none := by
          simp only [TypedBus.unregister, hl, hm, if_true]
          split <;> rfl
        rw [h2] at herr
        simp at herr
      · simp [TypedBus.unregister, hl, hm]

/-- C8 witness: unregistering from an empty bus of either variant raises
and leaves the bus state unchanged. -/
theorem unregister_failure_atomic_witness :
    (unregister ([] : Registry Nat) "a" 0).1 = []
    ∧ (TypedBus.unregister (TypedBus.new : TypedBus Nat) "a" 0).1 = TypedBus.new :=
  ⟨(unregister_failure_atomic [] TypedBus.new "a" 0).1 (by decide),
   (unregister_failure_atomic ([] : Registry Nat) TypedBus.new "a" 0).2 (by decide)⟩

/-- C5: starting from a registry with no entry for `e`, `register(e, h)`
followed by `unregister(e, h)` restores the registry exactly, in
particular leaving it without an entry for `e` (empty-set cleanup). -/
theorem register_unregister_roundtrip (r : Registry H) (e : String) (h : H)
    (habs : lookup r e = none) :
    unregister (register r e h) e h = (r, none)
    ∧ lookup (unregister (register r e h) e h).1 e = none := by
  have hlook : lookup (register r e h) e = some [h] := by
    simp [register, habs, lookup_setVal_self]
  have hreg : register r e h = r ++ [(e, [h])] := by
    simp [register, habs, setVal_absent r e [h] habs]
  have hdel : delKey (register r e h) e = r := by
    rw [hreg]
    unfold delKey
    rw [List.filter_append]
    have h1 : List.filter (fun p => p.1 != e) [(e, [h])] = [] := by simp
    have h2 := delKey_absent r e habs
    unfold delKey at h2
    rw [h1, h2, List.append_nil]
  have hu : unregister (register r e h) e h = (delKey (register r e h) e, none) := by
    simp [unregister, hlook]
  constructor
  · rw [hu, hdel]
  · rw [hu]
    simpa [hdel] using habs

/-- C5 witness: registering handler 3 for event a on a bus that only
knows event b, then unregistering it, restores the original registry. -/
theorem register_unregister_roundtrip_witness :
    unregister (register [("b", [9])] "a" (3 : Nat)) "a" 3 = ([("b", [9])], none)
    ∧ lookup (unregister (register [("b", [9])] "a" (3 : Nat)) "a" 3).1 "a" = none :=
  register_unregister_roundtrip [("b", [9])] "a" 3 (by decide)

/-- C4: emitting an event name with no registry entry is a silent no-op:
no exception is raised, no handler is invoked, and the registry is
unchanged. -/
theorem emit_absent_noop (prog : Nat → List Act) (fuel : Nat) (e : String)
    (d : Payload) (r : Registry Nat) (habs : lookup r e = none) :
    runEmit prog (fuel + 1) e d r = ⟨r, [], true⟩ := by
  simp [runEmit, habs]

/-- C4 witness: emitting an unused event name on a bus with another
registered event completes with an empty trace and an unchanged
registry. -/
theorem emit_absent_noop_witness :
    runEmit (fun _ => []) 1 "unused" 42 [("a", [0])] = ⟨[("a", [0])], [], true⟩ :=
  emit_absent_noop (fun _ => []) 0 "unused" 42 [("a", [0])] (by decide)

theorem register_register (r : Registry H) (e : String) (h : H) :
    register (register r e h) e h = register r e h := by
  cases hl : lookup r e with
  | none =>
    have h1 : register r e h = setVal r e [h] := by simp [register, hl]
    rw [h1]
    simp [register, lookup_setVal_self, setAdd, setVal_setVal]
  | some s =>
    by_cases hemp : s.isEmpty
    · have h1 : register r e h = setVal r e [h] := by simp [register, hl, hemp]
      rw [h1]
      simp [register, lookup_setVal_self, setAdd, setVal_setVal]
    · have h1 : register r e h = setVal r e (setAdd s h) := by simp [register, hl, hemp]
      rw [h1]
      have h3 : (setAdd s h).isEmpty = false := by
        cases hsa : setAdd s h with
        | nil => exact absurd hsa (setAdd_ne_nil s h)
        | cons a l => rfl
      simp [register, lookup_setVal_self, h3, setAdd_of_mem _ _ (mem_setAdd_self s h),
        setVal_setVal]

theorem runHandlers_pure (prog : Nat → List Act) (hpure : ∀ hid, prog hid = [])
    (fuel : Nat) (hs : List Nat) (e : String) (d : Payload) (r : Registry Nat) :
    runHandlers prog fuel hs e d r = ⟨r, hs.map (fun hid => Call.mk hid e d), true⟩ := by
  induction hs with
  | nil => simp [runHandlers]
  | cons hid rest ih => simp [runHandlers, hpure hid, runActs, ih]

theorem register_lookup_count (r : Registry H) (e : String) (h : H) (hset : SetInv r) :
    ∃ s1, lookup (register r e h) e = some s1 ∧ s1.count h = 1 := by
  cases hl : lookup r e with
  | none =>
    refine ⟨[h], ?_, by simp⟩
    simp [register, hl, lookup_setVal_self]
  | some s =>
    by_cases hemp : s.isEmpty
    · refine ⟨[h], ?_, by simp⟩
      simp [register, hl, hemp, lookup_setVal_self]
    · refine ⟨setAdd s h, ?_, ?_⟩
      · simp [register, hl, hemp, lookup_setVal_self]
      · have hnd : s.Nodup := hset (e, s) (lookup_mem r e s hl)
        by_cases hm : h ∈ s
        · rw [setAdd_of_mem s h hm]
          exact List.count_eq_one_of_mem hnd hm
        · simp only [setAdd, hm, if_false]
          rw [List.count_append]
          simp [List.count_eq_zero.2 hm]

/-- C3: `register(e, h)` is total on the embedded state (it returns a
registry, never an error), a second `register(e, h)` with the identical
handler leaves the registry completely unchanged (set semantics), and a
subsequent `emit(e, _)` then invokes `h` exactly once.  The registry is
assumed well-formed (each stored set duplicate-free, as a Python set is)
and the handlers are taken with empty bodies so the trace is exactly the
dispatch of this one emission. -/
theorem register_idempotent_emit_once (r : Registry Nat) (e : String) (h : Nat)
    (prog : Nat → List Act) (fuel : Nat) (d : Payload)
    (hset : SetInv r) (hpure : ∀ hid, prog hid = []) :
    register (register r e h) e h = register r e h
    ∧ ((runEmit prog (fuel + 1) e d (register (register r e h) e h)).trace.count
        (Call.mk h e d)) = 1 := by
  refine ⟨register_register r e h, ?_⟩
  rw [register_register r e h]
  obtain ⟨s1, hl1, hc1⟩ := register_lookup_count r e h hset
  have hinj : Function.Injective (fun hid : Nat => Call.mk hid e d) := by
    intro a b hab
    simpa using congrArg Call.hid hab
  simp only [runEmit, hl1, runHandlers_pure prog hpure]
  exact (List.count_map_of_injective s1 (fun hid : Nat => Call.mk hid e d) hinj h).trans hc1

/-- C3 witness: on the empty bus, registering handler 7 for ping twice
equals registering it once, and one emission of ping then invokes
handler 7 exactly once. -/
theorem register_idempotent_emit_once_witness :
    register (register ([] : Registry Nat) "ping" 7) "ping" 7 = register [] "ping" 7
    ∧ ((runEmit (fun _ => []) 1 "ping" 0
        (register (register ([] : Registry Nat) "ping" 7) "ping" 7)).trace.count
        (Call.mk 7 "ping" 0)) = 1 :=
  register_idempotent_emit_once [] "ping" 7 (fun _ => []) 0 0
    (fun _ hp => nomatch hp) (fun _ => rfl)

theorem mem_setVal (r : Registry H) (e : String) (s : List H) (p : String × List H)
    (hp : p ∈ setVal r e s) : p ∈ r ∨ p = (e, s) := by
  induction r with
  | nil =>
    simp [setVal] at hp
    exact Or.inr (by simp [hp])
  | cons q rest ih =>
    obtain ⟨k, v⟩ := q
    by_cases hk : k = e
    · simp only [setVal, hk, if_true] at hp
      rcases List.mem_cons.1 hp with h1 | h1
      · exact Or.inr (by simp [h1, hk])
      · exact Or.inl (List.mem_cons_of_mem _ h1)
    · simp only [setVal, hk, if_false] at hp
      rcases List.mem_cons.1 hp with h1 | h1
      · exact Or.inl (by simp [h1])
      · rcases ih h1 with h2 | h2
        · exact Or.inl (List.mem_cons_of_mem _ h2)
        · exact Or.inr h2

theorem mem_delKey (r : Registry H) (e : String) (p : String × List H)
    (hp : p ∈ delKey r e) : p ∈ r := by
  have h2 : p ∈ r ∧ ¬p.1 = e := by
    simpa [delKey, List.mem_filter, bne_iff_ne] using hp
  exact h2.1

theorem register_Inv (r : Registry H) (e : String) (h : H) (hinv : Inv r) :
    Inv (register r e h) := by
  intro p hp
  cases hl : lookup r e with
  | none =>
    simp only [register, hl] at hp
    rcases mem_setVal _ _ _ _ hp with h1 | h1
    · exact hinv p h1
    · rw [h1]; simp
  | some s =>
    by_cases hemp : s.isEmpty
    · simp only [register, hl, hemp, if_true] at hp
      rcases mem_setVal _ _ _ _ hp with h1 | h1
      · exact hinv p h1
      · rw [h1]; simp
    · simp only [register, hl, if_neg hemp] at hp
      rcases mem_setVal _ _ _ _ hp with h1 | h1
      · exact hinv p h1
      · rw [h1]
        exact setAdd_ne_nil s h

theorem unregister_Inv (r : Registry H) (e : String) (h : H) (hinv : Inv r) :
    Inv (unregister r e h).1 := by
  cases hl : lookup r e with
  | none =>
    simp only [unregister, hl]
    exact hinv
  | some s =>
    by_cases hm : h ∈ s
    · by_cases hlen : (s.erase h).length = 0
      · have hu : (unregister r e h).1 = delKey r e := by
          simp [unregister, hl, hm, hlen]
        rw [hu]
        intro p hp
        exact hinv p (mem_delKey r e p hp)
      · have hlen2 : ¬(s.length - 1 = 0) := by
          rwa [List.length_erase, if_pos hm] at hlen
        have hu : (unregister r e h).1 = setVal r e (s.erase h) := by
          simp [unregister, hl, hm, hlen2]
        rw [hu]
        intro p hp
        rcases mem_setVal _ _ _ _ hp with h1 | h1
        · exact hinv p h1
        · rw [h1]
          intro hnil
          simp only at hnil
          rw [hnil] at hlen
          exact hlen rfl
    · simp only [unregister, hl, if_neg hm]
      exact hinv

theorem runActs_Inv_of (prog : Nat → List Act) (fuel : Nat)
    (he : ∀ e d r, Inv r → Inv (runEmit prog fuel e d r).reg) :
    ∀ acts (r : Registry Nat), Inv r → Inv (runActs prog fuel acts r).reg := by
  intro acts
  induction acts with
  | nil => intro r hinv; simpa [runActs] using hinv
  | cons a rest ih =>
    intro r hinv
    cases a with
    | emitAct e d =>
      by_cases hok : (runEmit prog fuel e d r).ok = true
      · simp only [runActs, hok, if_true]
        exact ih _ (he e d r hinv)
      · simp only [runActs, hok, if_false]
        exact he e d r hinv
    | regAct e hid =>
      simp only [runActs]
      exact ih _ (register_Inv r e hid hinv)
    | unregAct e hid =>
      cases hu : (unregister r e hid).2 with
      | some err =>
        simp only [runActs, hu]
        exact unregister_Inv r e hid hinv
      | none =>
        simp only [runActs, hu]
        exact ih _ (unregister_Inv r e hid hinv)
    | failAct => simpa [runActs] using hinv

theorem runHandlers_Inv_of (prog : Nat → List Act) (fuel : Nat)
    (ha : ∀ acts (r : Registry Nat), Inv r → Inv (runActs prog fuel acts r).reg) :
    ∀ hs e d (r : Registry Nat), Inv r → Inv (runHandlers prog fuel hs e d r).reg := by
  intro hs e d
  induction hs with
  | nil => intro r hinv; simpa [runHandlers] using hinv
  | cons hid rest ih =>
    intro r hinv
    by_cases hok : (runActs prog fuel (prog hid) r).ok = true
    · simp only [runHandlers, hok, if_true]
      exact ih _ (ha _ _ hinv)
    · simp only [runHandlers, hok, if_false]
      exact ha _ _ hinv

theorem runEmit_Inv (prog : Nat → List Act) (fuel : Nat) :
    ∀ e d (r : Registry Nat), Inv r → Inv (runEmit prog fuel e d r).reg := by
  induction fuel with
  | zero => intro e d r hinv; simpa [runEmit] using hinv
  | succ f ih =>
    intro e d r hinv
    cases hl : lookup r e with
    | none => simpa [runEmit, hl] using hinv
    | some s =>
      simp only [runEmit, hl]
      exact runHandlers_Inv_of prog f (runActs_Inv_of prog f ih) s e d r hinv

theorem applyOps_Inv (prog : Nat → List Act) (fuel : Nat) :
    ∀ ops (r : Registry Nat), Inv r → Inv (applyOps prog fuel ops r) := by
  intro ops
  induction ops with
  | nil => intro r hinv; simpa [applyOps] using hinv
  | cons op rest ih =>
    intro r hinv
    cases op with
    | reg e h =>
      simp only [applyOps]
      exact ih _ (register_Inv r e h hinv)
    | unreg e h =>
      simp only [applyOps]
      exact ih _ (unregister_Inv r e h hinv)
    | emitOp e d =>
      simp only [applyOps]
      exact ih _ (runEmit_Inv prog fuel e d r hinv)

/-- C2: after any sequence of register, unregister and emit operations on
a freshly constructed bus (handlers may themselves act on the bus during
emission), an event name is a key of the registry exactly when its
handler set is non-empty; and a successful `unregister` that empties a
name's set deletes that key from the registry. -/
theorem registry_key_iff_nonempty (prog : Nat → List Act) (fuel : Nat) (ops : List Op) :
    (∀ e, lookup (applyOps prog fuel ops []) e ≠ none ↔
      ∃ s, lookup (applyOps prog fuel ops []) e = some s ∧ s ≠ [])
    ∧ (∀ (r : Registry Nat) (e : String) (h : Nat) s, lookup r e = some s → h ∈ s →
        (s.erase h).length = 0 → unregister r e h = (delKey r e, none)) := by
  constructor
  · have hinv : Inv (applyOps prog fuel ops []) :=
      applyOps_Inv prog fuel ops [] (fun p hp => nomatch hp)
    intro e
    constructor
    · intro hne
      cases hl : lookup (applyOps prog fuel ops []) e with
      | none => exact absurd hl hne
      | some s => exact ⟨s, rfl, hinv (e, s) (lookup_mem _ _ _ hl)⟩
    · rintro ⟨s, hl, _⟩
      rw [hl]
      simp
  · intro r e h s hl hm hlen
    have hlen2 : s.length - 1 = 0 := by
      rwa [List.length_erase, if_pos hm] at hlen
    simp [unregister, hl, hm, hlen2]

/-- C2 witness: after registering handler 1 for event a, emitting a, and
unregistering handler 1 again, the key-iff-nonempty property holds for
event a; and unregistering the last handler of a singleton set deletes
the key. -/
theorem registry_key_iff_nonempty_witness :
    (lookup (applyOps (fun _ => []) 1 [Op.reg "a" 1, Op.emitOp "a" 0, Op.unreg "a" 1] []) "a"
        ≠ none ↔
      ∃ s, lookup (applyOps (fun _ => []) 1 [Op.reg "a" 1, Op.emitOp "a" 0, Op.unreg "a" 1] [])
        "a" = some s ∧ s ≠ [])
    ∧ unregister [("a", [5])] "a" 5 = (delKey [("a", [5])] "a", none) :=
  ⟨(registry_key_iff_nonempty (fun _ => []) 1
      [Op.reg "a" 1, Op.emitOp "a" 0, Op.unreg "a" 1]).1 "a",
   (registry_key_iff_nonempty (fun _ => []) 1 []).2 [("a", [5])] "a" 5 [5]
      rfl (by decide) (by decide)⟩

theorem runActs_frame_of (prog : Nat → List Act) (fuel : Nat)
    (he : ∀ e d (r : Registry Nat), (runEmit prog fuel e d r).reg = r) :
    ∀ acts (r : Registry Nat), (∀ a ∈ acts, actMutates a = false) →
      (runActs prog fuel acts r).reg = r := by
  intro acts
  induction acts with
  | nil => intro r _; simp [runActs]
  | cons a rest ih =>
    intro r hall
    have hrest : ∀ a ∈ rest, actMutates a = false :=
      fun a ha => hall a (List.mem_cons_of_mem _ ha)
    cases a with
    | emitAct e d =>
      by_cases hok : (runEmit prog fuel e d r).ok = true
      · simp only [runActs, hok, if_true]
        rw [ih _ hrest, he e d r]
      · simp only [runActs, hok, if_false]
        exact he e d r
    | regAct e hid =>
      exact absurd (hall _ (List.mem_cons_self _ _)) (by simp [actMutates])
    | unregAct e hid =>
      exact absurd (hall _ (List.mem_cons_self _ _)) (by simp [actMutates])
    | failAct => simp [runActs]

theorem runHandlers_frame_of (prog : Nat → List Act) (fuel : Nat)
    (hno : ∀ hid a, a ∈ prog hid → actMutates a = false)
    (ha : ∀ acts (r : Registry Nat), (∀ a ∈ acts, actMutates a = false) →
      (runActs prog fuel acts r).reg = r) :
    ∀ hs e d (r : Registry Nat), (runHandlers prog fuel hs e d r).reg = r := by
  intro hs e d
  induction hs with
  | nil => intro r; simp [runHandlers]
  | cons hid rest ih =>
    intro r
    have h1 : (runActs prog fuel (prog hid) r).reg = r := ha _ _ (hno hid)
    by_cases hok : (runActs prog fuel (prog hid) r).ok = true
    · simp only [runHandlers, hok, if_true]
      rw [h1, ih]
    · simp only [runHandlers, hok, if_false]
      exact h1

/-- C9: `emit` itself never mutates the registry.  When no handler's body
performs a `register` or `unregister` call on the bus (re-entrant `emit`
calls and raised exceptions are allowed), the registry after `emit`
returns is exactly the registry before the call. -/
theorem emit_no_registry_mutation (prog : Nat → List Act) (fuel : Nat)
    (e : String) (d : Payload) (r : Registry Nat)
    (hno : ∀ hid a, a ∈ prog hid → actMutates a = false) :
    (runEmit prog fuel e d r).reg = r := by
  induction fuel generalizing e d r with
  | zero => simp [runEmit]
  | succ f ih =>
    cases hl : lookup r e with
    | none => simp [runEmit, hl]
    | some s =>
      simp only [runEmit, hl]
      exact runHandlers_frame_of prog f hno
        (runActs_frame_of prog f (fun e' d' r' => ih e' d' r')) s e d r

/-- C9 witness: emitting to a handler that re-emits another event (but
never registers or unregisters) leaves the registry untouched. -/
theorem emit_no_registry_mutation_witness :
    (runEmit (fun hid => if hid = 0 then [Act.emitAct "log" 1] else []) 2 "api" 0
      [("api", [0]), ("log", [1])]).reg = [("api", [0]), ("log", [1])] :=
  emit_no_registry_mutation (fun hid => if hid = 0 then [Act.emitAct "log" 1] else [])
    2 "api" 0 [("api", [0]), ("log", [1])]
    (by
      intro hid a ha
      by_cases h0 : hid = 0
      · simp [h0] at ha
        simp [ha, actMutates]
      · simp [h0] at ha)

theorem runHandlers_append (prog : Nat → List Act) (fuel : Nat) (xs ys : List Nat)
    (e : String) (d : Payload) :
    ∀ r : Registry Nat, (runHandlers prog fuel xs e d r).ok = true →
    runHandlers prog fuel (xs ++ ys) e d r =
      ⟨(runHandlers prog fuel ys e d (runHandlers prog fuel xs e d r).reg).reg,
       (runHandlers prog fuel xs e d r).trace ++
         (runHandlers prog fuel ys e d (runHandlers prog fuel xs e d r).reg).trace,
       (runHandlers prog fuel ys e d (runHandlers prog fuel xs e d r).reg).ok⟩ := by
  induction xs with
  | nil =>
    intro r _
    simp [runHandlers]
  | cons hid rest ih =>
    intro r hok
    by_cases hact : (runActs prog fuel (prog hid) r).ok = true
    · have hok2 : (runHandlers prog fuel rest e d
          (runActs prog fuel (prog hid) r).reg).ok = true := by
        simp only [runHandlers, hact, if_true] at hok
        exact hok
      simp only [List.cons_append, runHandlers, hact, if_true, ih _ hok2]
      simp [List.append_assoc]
    · exfalso
      simp only [runHandlers, hact, if_false] at hok
      cases hok

/-- C6: exceptions in handlers are not caught by the bus (fail-fast).  If
the handler set for `e` is `pre ++ hbad :: post`, the handlers of `pre`
complete normally, and `hbad`'s body raises, then `emit(e, d)` propagates
the failure to its caller and the emission's trace is exactly the
invocations of `pre`'s handlers, `hbad`'s invocation and whatever `hbad`
did before raising — the handlers of `post` are never invoked. -/
theorem emit_failfast (prog : Nat → List Act) (fuel : Nat) (pre post : List Nat)
    (hbad : Nat) (e : String) (d : Payload) (r : Registry Nat)
    (hl : lookup r e = some (pre ++ hbad :: post))
    (hpre : (runHandlers prog fuel pre e d r).ok = true)
    (hfail : (runActs prog fuel (prog hbad)
      (runHandlers prog fuel pre e d r).reg).ok = false) :
    runEmit prog (fuel + 1) e d r =
      ⟨(runActs prog fuel (prog hbad) (runHandlers prog fuel pre e d r).reg).reg,
       (runHandlers prog fuel pre e d r).trace ++
         Call.mk hbad e d ::
           (runActs prog fuel (prog hbad) (runHandlers prog fuel pre e d r).reg).trace,
       false⟩ := by
  simp only [runEmit, hl]
  rw [runHandlers_append prog fuel pre (hbad :: post) e d r hpre]
  simp [runHandlers, hfail]

/-- C6 witness: with handlers 0, 1, 2 for event e where handler 1 raises,
emitting e invokes handlers 0 and 1, propagates the exception, and never
invokes handler 2. -/
theorem emit_failfast_witness :
    runEmit (fun hid => if hid = 1 then [Act.failAct] else []) 2 "e" 5 [("e", [0, 1, 2])] =
      ⟨[("e", [0, 1, 2])], [Call.mk 0 "e" 5, Call.mk 1 "e" 5], false⟩ := by
  have h := emit_failfast (fun hid => if hid = 1 then [Act.failAct] else []) 1 [0] [2] 1
    "e" 5 [("e", [0, 1, 2])] (by simp [lookup])
    (by simp [runHandlers, runActs])
    (by simp [runHandlers, runActs])
  rw [h]
  simp [runHandlers, runActs]

theorem runHandlers_all_invoked (prog : Nat → List Act) (fuel : Nat) (e : String)
    (d : Payload) :
    ∀ hs (r : Registry Nat), (runHandlers prog fuel hs e d r).ok = true →
      ∀ hb ∈ hs, Call.mk hb e d ∈ (runHandlers prog fuel hs e d r).trace := by
  intro hs
  induction hs with
  | nil => intro r _ hb hmem; cases hmem
  | cons hid rest ih =>
    intro r hok hb hmem
    by_cases hact : (runActs prog fuel (prog hid) r).ok = true
    · have hok2 : (runHandlers prog fuel rest e d
          (runActs prog fuel (prog hid) r).reg).ok = true := by
        simp only [runHandlers, hact, if_true] at hok
        exact hok
      simp only [runHandlers, hact, if_true]
      rcases List.mem_cons.1 hmem with h1 | h1
      · subst h1
        exact List.mem_cons_self _ _
      · exact List.mem_cons_of_mem _
          (List.mem_append_right _ (ih _ hok2 hb h1))
    · exfalso
      simp only [runHandlers, hact, if_false] at hok
      cases hok

theorem emit_all_invoked (prog : Nat → List Act) (fuel : Nat) (e : String)
    (d : Payload) (r : Registry Nat) (hok : (runEmit prog fuel e d r).ok = true) :
    ∀ hb ∈ setOf r e, Call.mk hb e d ∈ (runEmit prog fuel e d r).trace := by
  cases fuel with
  | zero => simp [runEmit] at hok
  | succ f =>
    cases hl : lookup r e with
    | none =>
      intro hb hmem
      simp [setOf, hl] at hmem
    | some s =>
      intro hb hmem
      simp only [setOf, hl, Option.getD_some] at hmem
      have hok' : (runHandlers prog f s e d r).ok = true := by
        simpa [runEmit, hl] using hok
      have h1 := runHandlers_all_invoked prog f e d s r hok' hb hmem
      simpa [runEmit, hl] using h1

/-- C7: re-entrant emission is synchronous and runs to completion.  If the
first handler `ha` for event `A` begins its body by calling
`emit(B, x)`, and that nested emission completes, then the trace of the
enclosing `emit(A, d)` is `ha`'s invocation followed immediately by the
complete trace of the nested emission of `B` — in which every handler
currently registered for `B` is invoked — before anything else of `A`'s
emission happens and before `emit(A, d)` returns to its caller. -/
theorem reentrant_emit_nested_completes (prog : Nat → List Act) (fuel : Nat)
    (r : Registry Nat) (A B : String) (d x : Payload) (ha : Nat)
    (hsrest : List Nat) (rest : List Act)
    (hA : lookup r A = some (ha :: hsrest))
    (hp : prog ha = Act.emitAct B x :: rest)
    (hok : (runEmit prog fuel B x r).ok = true) :
    (∃ t, (runEmit prog (fuel + 1) A d r).trace
        = Call.mk ha A d :: (runEmit prog fuel B x r).trace ++ t)
    ∧ ∀ hb ∈ setOf r B, Call.mk hb B x ∈ (runEmit prog fuel B x r).trace := by
  constructor
  · have hres : runActs prog fuel (prog ha) r =
        ⟨(runActs prog fuel rest (runEmit prog fuel B x r).reg).reg,
         (runEmit prog fuel B x r).trace ++
           (runActs prog fuel rest (runEmit prog fuel B x r).reg).trace,
         (runActs prog fuel rest (runEmit prog fuel B x r).reg).ok⟩ := by
      rw [hp]
      simp [runActs, hok]
    simp only [runEmit, hA, runHandlers, hres]
    split
    · refine ⟨(runActs prog fuel rest (runEmit prog fuel B x r).reg).trace ++
        (runHandlers prog fuel hsrest A d
          (runActs prog fuel rest (runEmit prog fuel B x r).reg).reg).trace, ?_⟩
      simp [List.append_assoc]
    · exact ⟨_, rfl⟩
  · exact emit_all_invoked prog fuel B x r hok

/-- C7 witness: handler 0 for event A re-emits event B; with handlers 1
and 2 registered for B, the trace of emitting A starts with handler 0's
invocation followed by the complete B emission, and both B handlers
appear in that nested trace. -/
theorem reentrant_emit_nested_completes_witness :
    (∃ t, (runEmit (fun hid => if hid = 0 then [Act.emitAct "B" 7] else []) 2 "A" 3
        [("A", [0]), ("B", [1, 2])]).trace
      = Call.mk 0 "A" 3 ::
          (runEmit (fun hid => if hid = 0 then [Act.emitAct "B" 7] else []) 1 "B" 7
            [("A", [0]), ("B", [1, 2])]).trace ++ t)
    ∧ ∀ hb ∈ setOf [("A", [0]), ("B", [1, 2])] "B",
        Call.mk hb "B" 7 ∈ (runEmit (fun hid => if hid = 0 then [Act.emitAct "B" 7] else [])
          1 "B" 7 [("A", [0]), ("B", [1, 2])]).trace :=
  reentrant_emit_nested_completes (fun hid => if hid = 0 then [Act.emitAct "B" 7] else [])
    1 [("A", [0]), ("B", [1, 2])] "A" "B" 3 7 0 [] []
    (by simp [lookup]) (by simp) (by simp [runEmit, runHandlers, runActs, lookup])

theorem typed_register_registry (b : TypedBus H) (e : String) (h : H) :
    (TypedBus.register b e h).registry = register b.registry e h := by
  cases hl : lookup b.registry e with
  | none => simp [TypedBus.register, register, hl]
  | some s =>
    by_cases hemp : s.isEmpty
    · simp [TypedBus.register, register, hl, hemp]
    · simp [TypedBus.register, register, hl, hemp]

theorem typed_unregister_registry (b : TypedBus H) (e : String) (h : H) :
    (TypedBus.unregister b e h).1.registry = (unregister b.registry e h).1
    ∧ (TypedBus.unregister b e h).2 = (unregister b.registry e h).2 := by
  cases hl : lookup b.registry e with
  | none => simp [TypedBus.unregister, unregister, hl]
  | some s =>
    by_cases hm : h ∈ s
    · by_cases hlen : (s.erase h).length = 0
      · constructor <;> simp [TypedBus.unregister, unregister, hl, hm, hlen]
      · have hlen2 : ¬(s.length - 1 = 0) := by
          rwa [List.length_erase, if_pos hm] at hlen
        constructor <;> simp [TypedBus.unregister, unregister, hl, hm, hlen2]
    · constructor <;> simp [TypedBus.unregister, unregister, hl, hm]

theorem applyRegOps_registry (ops : List (RegOp H)) :
    ∀ b : TypedBus H, (TypedBus.applyRegOps ops b).registry = applyRegOps ops b.registry := by
  induction ops with
  | nil => intro b; simp [TypedBus.applyRegOps, applyRegOps]
  | cons op rest ih =>
    intro b
    cases op with
    | reg e h =>
      simp only [TypedBus.applyRegOps, applyRegOps]
      rw [ih, typed_register_registry]
    | unreg e h =>
      simp only [TypedBus.applyRegOps, applyRegOps]
      rw [ih, (typed_unregister_registry b e h).1]

/-- C10: TypedEventBus and UntypedEventBus are registry-equivalent.  Any
sequence of register/unregister calls applied to freshly constructed
buses of the two variants yields the identical registry, and emitting any
event then produces invocations of exactly the same handlers, the typed
variant passing `(event_name, data)` to each handler where the untyped
variant passes only `(data)`. -/
theorem typed_untyped_equivalent (ops : List (RegOp H)) (e : String) (d : D) :
    (TypedBus.applyRegOps ops (TypedBus.new : TypedBus H)).registry =
      applyRegOps ops ([] : Registry H)
    ∧ TypedBus.emitCalls (TypedBus.applyRegOps ops (TypedBus.new : TypedBus H)) e d =
        (emitCalls (applyRegOps ops ([] : Registry H)) e d).map (fun c => (c.1, e, c.2)) := by
  have hreg := applyRegOps_registry ops (TypedBus.new : TypedBus H)
  constructor
  · exact hreg
  · simp only [TypedBus.emitCalls, emitCalls]
    rw [hreg, List.map_map]
    rfl

end EventBus
